import Mathlib

/-!
Shallow embedding of the rtlog single-producer/single-consumer logger
(`rtlog::Logger` in the header providing `Log`, `LogFmt` and
`PrintAndClearLogQueue`, and `rtlog::LogProcessingThread`), together with
proofs about its queueing, truncation and drain-scheduling behaviour.

The C++ template parameters `MaxNumMessages` and `MaxMessageLength` are the
explicit `cap` and `L : Nat` arguments; the external atomic counter
`SequenceNumber` and the spsc queue are the two fields of `LoggerState`.
Machine characters are Lean `Char`s; message buffers are `List Char` of
length `MaxMessageLength`.
-/

namespace rtlog

/-- Status codes returned by `Logger::Log` and `Logger::LogFmt`. -/
inductive Status where
  | Success
  | Error_QueueFull
  | Error_MessageTruncated
deriving DecidableEq

/-- The terminating null character written by the formatting routines. -/
def nullChar : Char := Char.ofNat 0

/-- Slot type `Logger::InternalLogData` of the spsc queue. `mMessage` models
the `std::array<char, MaxMessageLength>` buffer. -/
structure InternalLogData (LogData : Type) where
  mLogData : LogData
  mSequenceNumber : Nat
  mMessage : List Char
deriving DecidableEq

/-- The mutable state a `Logger` instantiation touches: the external atomic
`SequenceNumber` counter and the `boost::lockfree::spsc_queue` `mQueue`
(front of the list = next element to pop). -/
structure LoggerState (LogData : Type) where
  SequenceNumber : Nat
  mQueue : List (InternalLogData LogData)
deriving DecidableEq

/-- Push of `boost::lockfree::spsc_queue` on a queue of capacity `cap`:
appends at the tail when a free slot exists, otherwise leaves the queue
unchanged; the boolean is the return value of `push`. -/
def spsc_push {R : Type} (cap : Nat) (q : List R) (r : R) : Bool × List R :=
  if q.length < cap then (true, q ++ [r]) else (false, q)

/-- Model of `stbsp_vsnprintf(buf, count, format, args)` from stb_sprintf,
applied to a zero-initialized buffer of `count` bytes. `msg` is the full
formatted text the format expansion produces. stb clamps the buffer write to
`count - 1` characters, null-terminates, leaves the zeroed tail untouched,
and returns the length of the whole (unclamped) formatted text. -/
def stbsp_vsnprintf (msg : List Char) (count : Nat) : Int × List Char :=
  (Int.ofNat msg.length,
   msg.take (min msg.length (count - 1))
     ++ List.replicate (count - min msg.length (count - 1)) nullChar)

/-- Body of `Logger::Log` (lines 66-92), abstracted over the formatter result
`fmtRes = (charsPrinted, buffer contents after formatting)`. Transcribes:
pre-increment of `SequenceNumber`, the
`charsPrinted < 0 || charsPrinted >= mMessage.size()` truncation test, the
unconditional push attempt, and the `Error_QueueFull` override of `retVal`
when `push` fails. -/
def Logger.LogRaw {D : Type} (cap L : Nat) (st : LoggerState D) (inputData : D)
    (fmtRes : Int × List Char) : Status × LoggerState D :=
  let dataToQueue : InternalLogData D := ⟨inputData, st.SequenceNumber + 1, fmtRes.2⟩
  let retVal :=
    if fmtRes.1 < 0 ∨ (L : Int) ≤ fmtRes.1 then Status.Error_MessageTruncated
    else Status.Success
  let pushed := spsc_push cap st.mQueue dataToQueue
  (if pushed.1 then retVal else Status.Error_QueueFull,
   ⟨st.SequenceNumber + 1, pushed.2⟩)

/-- Full `Logger::Log`: formats `msg` into the `MaxMessageLength`-byte message
buffer with `stbsp_vsnprintf` and runs the status/push logic of `LogRaw`. -/
def Logger.Log {D : Type} (cap L : Nat) (st : LoggerState D) (inputData : D)
    (msg : List Char) : Status × LoggerState D :=
  Logger.LogRaw cap L st inputData (stbsp_vsnprintf msg L)

/-- Model of `fmt::format_to_n(buf, n, fmtString, args...)`: writes the first
`min (msg.length) n` characters of the formatted text `msg` into the buffer
and reports `result.size = msg.length`, the size of the full output. -/
def fmt_format_to_n (msg : List Char) (n : Nat) : List Char × Nat :=
  (msg.take (min msg.length n), msg.length)

/-- The message buffer `LogFmt` builds (lines 127-137): `fmt::format_to_n`
fills the zero-initialized buffer up to `MaxMessageLength - 1` characters,
then the terminator is written at `size - 1` when the text was truncated
(`result.size >= size`) or at `result.size` when it fit. -/
def logFmtBuffer (msg : List Char) (L : Nat) : List Char :=
  let result := fmt_format_to_n msg (L - 1)
  let buf0 := result.1 ++ List.replicate (L - result.1.length) nullChar
  if L ≤ result.2 then buf0.set (L - 1) nullChar else buf0.set result.2 nullChar

/-- Body of `Logger::LogFmt` (lines 118-147): formats with
`fmt::format_to_n(data, size - 1, ...)` into the zero-initialized buffer,
null-terminates (see `logFmtBuffer`), reports `Error_MessageTruncated` when
`result.size >= mMessage.size()`, then attempts the push exactly as `Log`
does (`try_enqueue` is the same bounded non-blocking push as `push`). -/
def Logger.LogFmt {D : Type} (cap L : Nat) (st : LoggerState D) (inputData : D)
    (msg : List Char) : Status × LoggerState D :=
  let result := fmt_format_to_n msg (L - 1)
  let retVal :=
    if L ≤ result.2 then Status.Error_MessageTruncated else Status.Success
  let dataToQueue : InternalLogData D :=
    ⟨inputData, st.SequenceNumber + 1, logFmtBuffer msg L⟩
  let pushed := spsc_push cap st.mQueue dataToQueue
  (if pushed.1 then retVal else Status.Error_QueueFull,
   ⟨st.SequenceNumber + 1, pushed.2⟩)

/-- What the sink reads through `printLogFn(..., "%s", value.mMessage.data())`:
the characters of the buffer up to the first null terminator. -/
def cString (buf : List Char) : List Char :=
  buf.takeWhile (fun c => c ≠ nullChar)

/-- One sink invocation `printLogFn(value.mLogData, value.mSequenceNumber,
"%s", value.mMessage.data())`. -/
structure SinkCall (LogData : Type) where
  logData : LogData
  sequenceNumber : Nat
  message : List Char
deriving DecidableEq

/-- The sink invocation produced when a popped record is printed. -/
def toSinkCall {D : Type} (r : InternalLogData D) : SinkCall D :=
  ⟨r.mLogData, r.mSequenceNumber, cString r.mMessage⟩

/-- The `while (mQueue.pop(value))` loop of `PrintAndClearLogQueue`
(lines 169-177): pops front to back, invokes the sink on each record, and
counts `numProcessed`. Returns the count and the sink calls in order. -/
def drainLoop {D : Type} : List (InternalLogData D) → Nat × List (SinkCall D)
  | [] => (0, [])
  | value :: rest =>
    let r := drainLoop rest
    (r.1 + 1, toSinkCall value :: r.2)

/-- Drain operation `Logger::PrintAndClearLogQueue`: empties the queue, returning
`(numProcessed, sink calls in pop order)` and the emptied state. -/
def Logger.PrintAndClearLogQueue {D : Type} (st : LoggerState D) :
    (Nat × List (SinkCall D)) × LoggerState D :=
  (drainLoop st.mQueue, ⟨st.SequenceNumber, []⟩)

/-- Outcome of a producer session: the statuses returned by the `Log` calls,
the chronological list of records that actually entered the queue, and the
final logger state. -/
structure RunResult (D : Type) where
  statuses : List Status
  pushedRecords : List (InternalLogData D)
  final : LoggerState D

/-- Runs a sequence of `Log` calls (single producer, no concurrent drain),
recording each returned status and each record the push placed in the queue. -/
def runLogs {D : Type} (cap L : Nat) (st : LoggerState D) :
    List (D × List Char) → RunResult D
  | [] => ⟨[], [], st⟩
  | (d, msg) :: rest =>
    let step := Logger.Log cap L st d msg
    let r := runLogs cap L step.2 rest
    ⟨step.1 :: r.statuses,
     step.2.mQueue.drop st.mQueue.length ++ r.pushedRecords,
     r.final⟩

/-- Control points of `LogProcessingThread::ThreadMain`: the
`while (mShouldRun.load())` check, the final drain after the loop, and
thread exit. -/
inductive ThreadPC where
  | loopCheck
  | finalDrain
  | done
deriving DecidableEq

/-- State of the log processing thread together with the logger queue it
drains: the `mShouldRun` atomic flag, the control point, the shared queue,
the sink calls made so far, and counters of sleeps (in units of `mWaitTime`)
and of `PrintAndClearLogQueue` calls. -/
structure ThreadState (D : Type) where
  mShouldRun : Bool
  pc : ThreadPC
  queue : List (InternalLogData D)
  out : List (SinkCall D)
  sleeps : Nat
  drains : Nat
deriving DecidableEq

/-- One atomic step of `ThreadMain` (lines 70-82). At `loopCheck` with the
flag set, the loop body runs: one `PrintAndClearLogQueue`, an extra
`sleep_for(mWaitTime)` when that call returned 0, and the unconditional
`sleep_for(mWaitTime)`. With the flag clear the loop exits; the `finalDrain`
step is the trailing `PrintAndClearLogQueue` before `ThreadMain` returns. -/
def threadStep {D : Type} (s : ThreadState D) : ThreadState D :=
  match s.pc with
  | ThreadPC.loopCheck =>
    if s.mShouldRun then
      let result := drainLoop s.queue
      { s with queue := [], out := s.out ++ result.2,
               drains := s.drains + 1,
               sleeps := s.sleeps + (if result.1 = 0 then 1 else 0) + 1 }
    else
      { s with pc := ThreadPC.finalDrain }
  | ThreadPC.finalDrain =>
    { s with pc := ThreadPC.done, queue := [],
             out := s.out ++ (drainLoop s.queue).2,
             drains := s.drains + 1 }
  | ThreadPC.done => s

/-- Model of `LogProcessingThread::Stop`: `mShouldRun.store(false)`. -/
def LogProcessingThread.Stop {D : Type} (s : ThreadState D) : ThreadState D :=
  { s with mShouldRun := false }

/-! ## Basic lemmas about the push and drain paths -/

theorem LogRaw_of_room {D : Type} (cap L : Nat) (st : LoggerState D) (d : D)
    (f : Int × List Char) (h : st.mQueue.length < cap) :
    Logger.LogRaw cap L st d f =
      ((if f.1 < 0 ∨ (L : Int) ≤ f.1 then Status.Error_MessageTruncated
        else Status.Success),
       ⟨st.SequenceNumber + 1,
        st.mQueue ++ [⟨d, st.SequenceNumber + 1, f.2⟩]⟩) := by
  simp [Logger.LogRaw, spsc_push, h]

theorem LogRaw_of_full {D : Type} (cap L : Nat) (st : LoggerState D) (d : D)
    (f : Int × List Char) (h : ¬ st.mQueue.length < cap) :
    Logger.LogRaw cap L st d f =
      (Status.Error_QueueFull, ⟨st.SequenceNumber + 1, st.mQueue⟩) := by
  simp [Logger.LogRaw, spsc_push, h]

theorem Log_state_of_room {D : Type} (cap L : Nat) (st : LoggerState D) (d : D)
    (msg : List Char) (h : st.mQueue.length < cap) :
    (Logger.Log cap L st d msg).2 =
      ⟨st.SequenceNumber + 1,
       st.mQueue ++ [⟨d, st.SequenceNumber + 1, (stbsp_vsnprintf msg L).2⟩]⟩ := by
  rw [Logger.Log, LogRaw_of_room cap L st d _ h]

theorem Log_status_ne_queueFull_of_room {D : Type} (cap L : Nat)
    (st : LoggerState D) (d : D) (msg : List Char) (h : st.mQueue.length < cap) :
    (Logger.Log cap L st d msg).1 ≠ Status.Error_QueueFull := by
  rw [Logger.Log, LogRaw_of_room cap L st d _ h]
  split <;> simp

theorem Log_of_full {D : Type} (cap L : Nat) (st : LoggerState D) (d : D)
    (msg : List Char) (h : ¬ st.mQueue.length < cap) :
    Logger.Log cap L st d msg =
      (Status.Error_QueueFull, ⟨st.SequenceNumber + 1, st.mQueue⟩) := by
  rw [Logger.Log, LogRaw_of_full cap L st d _ h]

theorem drainLoop_eq {D : Type} (q : List (InternalLogData D)) :
    drainLoop q = (q.length, q.map toSinkCall) := by
  induction q with
  | nil => rfl
  | cons v rest ih => simp [drainLoop, ih]

/-! ## Claim theorems -/

/-- C5: Every `Log` call (and every `LogFmt` call) increments the shared
`SequenceNumber` counter exactly once, unconditionally — the pre-increment
happens before formatting and before the push attempt, so queue-full and
truncated calls increment it as well. -/
theorem log_increments_sequence_unconditionally {D : Type} (cap L : Nat)
    (st : LoggerState D) (d : D) (msg : List Char) :
    (Logger.Log cap L st d msg).2.SequenceNumber = st.SequenceNumber + 1 ∧
    (Logger.LogFmt cap L st d msg).2.SequenceNumber = st.SequenceNumber + 1 :=
  ⟨rfl, rfl⟩

/-- C2: when the formatted text does not fit in the `MaxMessageLength`
buffer and the ring buffer has no free slot in the same call, the returned
status is `Error_QueueFull`, because the push-failure branch overwrites the
truncation status. -/
theorem queue_full_wins_over_truncation {D : Type} (cap L : Nat)
    (st : LoggerState D) (d : D) (msg : List Char)
    (hbig : L ≤ msg.length) (hfull : cap ≤ st.mQueue.length) :
    (Logger.Log cap L st d msg).1 = Status.Error_QueueFull := by
  rw [Log_of_full cap L st d msg (by omega)]

/-- Witness for `queue_full_wins_over_truncation` at capacity 1, message
length 3, buffer length 2, on an already-full queue. -/
theorem queue_full_wins_over_truncation_witness :
    2 ≤ (['x', 'y', 'z'] : List Char).length ∧
    1 ≤ (⟨5, [⟨7, 1, ['a', nullChar]⟩]⟩ : LoggerState Nat).mQueue.length ∧
    (Logger.Log 1 2 (⟨5, [⟨7, 1, ['a', nullChar]⟩]⟩ : LoggerState Nat) 9
        ['x', 'y', 'z']).1 = Status.Error_QueueFull :=
  ⟨by decide, by decide,
   queue_full_wins_over_truncation 1 2 ⟨5, [⟨7, 1, ['a', nullChar]⟩]⟩ 9
     ['x', 'y', 'z'] (by decide) (by decide)⟩

/-- C6: when the queue already holds `MaxNumMessages` unconsumed records,
the next `Log` call returns `Error_QueueFull` and the stored records and
their order are exactly the same after the call as before it. -/
theorem queue_full_rejection_preserves_queue {D : Type} (cap L : Nat)
    (st : LoggerState D) (d : D) (msg : List Char)
    (hfull : st.mQueue.length = cap) :
    (Logger.Log cap L st d msg).1 = Status.Error_QueueFull ∧
    (Logger.Log cap L st d msg).2.mQueue = st.mQueue := by
  rw [Log_of_full cap L st d msg (by omega)]
  exact ⟨rfl, rfl⟩

/-- Witness for `queue_full_rejection_preserves_queue`: a queue of capacity 2
holding two records rejects the next call and keeps both records in order. -/
theorem queue_full_rejection_preserves_queue_witness :
    (⟨2, [⟨1, 1, ['a', nullChar]⟩, ⟨2, 2, ['b', nullChar]⟩]⟩ :
        LoggerState Nat).mQueue.length = 2 ∧
    ((Logger.Log 2 2 (⟨2, [⟨1, 1, ['a', nullChar]⟩, ⟨2, 2, ['b', nullChar]⟩]⟩ :
          LoggerState Nat) 3 ['c']).1 = Status.Error_QueueFull ∧
     (Logger.Log 2 2 (⟨2, [⟨1, 1, ['a', nullChar]⟩, ⟨2, 2, ['b', nullChar]⟩]⟩ :
          LoggerState Nat) 3 ['c']).2.mQueue
        = [⟨1, 1, ['a', nullChar]⟩, ⟨2, 2, ['b', nullChar]⟩]) :=
  ⟨by decide,
   queue_full_rejection_preserves_queue 2 2
     ⟨2, [⟨1, 1, ['a', nullChar]⟩, ⟨2, 2, ['b', nullChar]⟩]⟩ 3 ['c'] (by decide)⟩

/-- C10: when the formatter reports a negative result (`charsPrinted < 0`),
`Log` reports it through the same `Error_MessageTruncated` status as an
oversized message — there is no separate category — and the record, with
whatever the buffer then contains, is still enqueued when a slot is free. -/
theorem negative_format_result_reported_as_truncated {D : Type} (cap L : Nat)
    (st : LoggerState D) (d : D) (charsPrinted : Int) (buf : List Char)
    (hneg : charsPrinted < 0) (hroom : st.mQueue.length < cap) :
    (Logger.LogRaw cap L st d (charsPrinted, buf)).1
        = Status.Error_MessageTruncated ∧
    (Logger.LogRaw cap L st d (charsPrinted, buf)).2.mQueue
        = st.mQueue ++ [⟨d, st.SequenceNumber + 1, buf⟩] := by
  rw [LogRaw_of_room cap L st d _ hroom]
  exact ⟨by simp [hneg], rfl⟩

/-- Witness for `negative_format_result_reported_as_truncated` with
`charsPrinted = -1` on an empty queue of capacity 1. -/
theorem negative_format_result_reported_as_truncated_witness :
    (-1 : Int) < 0 ∧
    (⟨0, []⟩ : LoggerState Nat).mQueue.length < 1 ∧
    ((Logger.LogRaw 1 4 (⟨0, []⟩ : LoggerState Nat) 9 (-1, ['a', nullChar])).1
        = Status.Error_MessageTruncated ∧
     (Logger.LogRaw 1 4 (⟨0, []⟩ : LoggerState Nat) 9 (-1, ['a', nullChar])).2.mQueue
        = [] ++ [⟨9, 0 + 1, ['a', nullChar]⟩]) :=
  ⟨by decide, by decide,
   negative_format_result_reported_as_truncated 1 4 ⟨0, []⟩ 9 (-1)
     ['a', nullChar] (by decide) (by decide)⟩

/-- When the formatted text does not fit (`L ≤ msg.length`), the stb buffer
holds exactly the first `L - 1` characters followed by the terminator. -/
theorem stbsp_vsnprintf_of_overflow (msg : List Char) (L : Nat)
    (hL : 1 ≤ L) (hbig : L ≤ msg.length) :
    stbsp_vsnprintf msg L
      = ((msg.length : Int), msg.take (L - 1) ++ [nullChar]) := by
  have hmin : min msg.length (L - 1) = L - 1 := Nat.min_eq_right (by omega)
  have hone : L - (L - 1) = 1 := by omega
  simp [stbsp_vsnprintf, hmin, hone]

/-- C3: a `Log` call whose formatted text does not fit in the buffer still
enqueues the record (queue permitting), the stored buffer is the text
truncated to exactly `MaxMessageLength - 1` characters followed by the null
terminator, and the call returns `Error_MessageTruncated`. -/
theorem truncated_message_still_enqueued {D : Type} (cap L : Nat)
    (st : LoggerState D) (d : D) (msg : List Char)
    (hL : 1 ≤ L) (hbig : L ≤ msg.length) (hroom : st.mQueue.length < cap) :
    (Logger.Log cap L st d msg).1 = Status.Error_MessageTruncated ∧
    (Logger.Log cap L st d msg).2.mQueue
      = st.mQueue
          ++ [⟨d, st.SequenceNumber + 1, msg.take (L - 1) ++ [nullChar]⟩] ∧
    (msg.take (L - 1)).length = L - 1 := by
  have hbuf := stbsp_vsnprintf_of_overflow msg L hL hbig
  refine ⟨?_, ?_, ?_⟩
  · rw [Logger.Log, hbuf, LogRaw_of_room cap L st d _ hroom]
    have h1 : (L : Int) ≤ (msg.length : Int) := by exact_mod_cast hbig
    simp [h1]
  · rw [Log_state_of_room cap L st d msg hroom, hbuf]
  · rw [List.length_take]
    omega

/-- Witness for `truncated_message_still_enqueued`: a 4-character text into a
3-byte buffer keeps characters `a`, `b` plus the terminator. -/
theorem truncated_message_still_enqueued_witness :
    1 ≤ 3 ∧ 3 ≤ (['a', 'b', 'c', 'd'] : List Char).length ∧
    (⟨0, []⟩ : LoggerState Nat).mQueue.length < 1 ∧
    ((Logger.Log 1 3 (⟨0, []⟩ : LoggerState Nat) 9 ['a', 'b', 'c', 'd']).1
        = Status.Error_MessageTruncated ∧
     (Logger.Log 1 3 (⟨0, []⟩ : LoggerState Nat) 9 ['a', 'b', 'c', 'd']).2.mQueue
        = [] ++ [⟨9, 0 + 1, (['a', 'b', 'c', 'd'] : List Char).take (3 - 1)
                    ++ [nullChar]⟩] ∧
     ((['a', 'b', 'c', 'd'] : List Char).take (3 - 1)).length = 3 - 1) :=
  ⟨by decide, by decide, by decide,
   truncated_message_still_enqueued 1 3 ⟨0, []⟩ 9 ['a', 'b', 'c', 'd']
     (by decide) (by decide) (by decide)⟩

/-- The stb-formatted buffer contains a null terminator within its
`MaxMessageLength` bytes. -/
theorem stbsp_buffer_null_terminated (msg : List Char) (L : Nat) (hL : 1 ≤ L) :
    ∃ i, i < L ∧ (stbsp_vsnprintf msg L).2[i]? = some nullChar := by
  have hmle : min msg.length (L - 1) ≤ L - 1 := Nat.min_le_right _ _
  have hmlen : (msg.take (min msg.length (L - 1))).length
      = min msg.length (L - 1) := by
    rw [List.length_take, Nat.min_eq_left (Nat.min_le_left _ _)]
  refine ⟨min msg.length (L - 1), by omega, ?_⟩
  show (msg.take (min msg.length (L - 1))
      ++ List.replicate (L - min msg.length (L - 1))
          nullChar)[min msg.length (L - 1)]? = some nullChar
  rw [List.getElem?_append_right (le_of_eq hmlen), hmlen, Nat.sub_self]
  exact List.getElem?_replicate_of_lt (by omega)

/-- The `LogFmt` buffer contains a null terminator within its
`MaxMessageLength` bytes. -/
theorem logFmtBuffer_null_terminated (msg : List Char) (L : Nat) (hL : 1 ≤ L) :
    ∃ i, i < L ∧ (logFmtBuffer msg L)[i]? = some nullChar := by
  have htlen : (msg.take (min msg.length (L - 1))).length
      = min msg.length (L - 1) := by
    rw [List.length_take, Nat.min_eq_left (Nat.min_le_left _ _)]
  have hlen : (msg.take (min msg.length (L - 1))
      ++ List.replicate (L - (msg.take (min msg.length (L - 1))).length)
          nullChar).length = L := by
    rw [List.length_append, List.length_replicate, htlen]
    have := Nat.min_le_right msg.length (L - 1)
    omega
  by_cases h : L ≤ msg.length
  · refine ⟨L - 1, by omega, ?_⟩
    simp only [logFmtBuffer, fmt_format_to_n]
    rw [if_pos h]
    exact List.getElem?_set_eq_of_lt nullChar (by rw [hlen]; omega)
  · refine ⟨msg.length, by omega, ?_⟩
    simp only [logFmtBuffer, fmt_format_to_n]
    rw [if_neg h]
    exact List.getElem?_set_eq_of_lt nullChar (by rw [hlen]; omega)

/-- C7: every record that enters the queue via `Log` or via `LogFmt` —
whether the text fit or was truncated — carries a message buffer containing
a null terminator within its `MaxMessageLength` bytes; a call that enqueues
nothing leaves the queue unchanged. -/
theorem every_enqueued_record_null_terminated {D : Type} (cap L : Nat)
    (st : LoggerState D) (d : D) (msg : List Char) (hL : 1 ≤ L) :
    ((Logger.Log cap L st d msg).2.mQueue = st.mQueue ∨
     ∃ r, (Logger.Log cap L st d msg).2.mQueue = st.mQueue ++ [r] ∧
       ∃ i, i < L ∧ r.mMessage[i]? = some nullChar) ∧
    ((Logger.LogFmt cap L st d msg).2.mQueue = st.mQueue ∨
     ∃ r, (Logger.LogFmt cap L st d msg).2.mQueue = st.mQueue ++ [r] ∧
       ∃ i, i < L ∧ r.mMessage[i]? = some nullChar) := by
  constructor
  · by_cases h : st.mQueue.length < cap
    · exact Or.inr ⟨⟨d, st.SequenceNumber + 1, (stbsp_vsnprintf msg L).2⟩,
        by rw [Log_state_of_room cap L st d msg h],
        stbsp_buffer_null_terminated msg L hL⟩
    · exact Or.inl (by rw [Log_of_full cap L st d msg h])
  · by_cases h : st.mQueue.length < cap
    · exact Or.inr ⟨⟨d, st.SequenceNumber + 1, logFmtBuffer msg L⟩,
        by simp [Logger.LogFmt, spsc_push, h],
        logFmtBuffer_null_terminated msg L hL⟩
    · exact Or.inl (by simp [Logger.LogFmt, spsc_push, h])

/-- Witness for `every_enqueued_record_null_terminated` with an oversized
4-character text and a 3-byte buffer on an empty queue of capacity 1. -/
theorem every_enqueued_record_null_terminated_witness :
    1 ≤ 3 ∧
    (((Logger.Log 1 3 (⟨0, []⟩ : LoggerState Nat) 9 ['a', 'b', 'c', 'd']).2.mQueue
        = (⟨0, []⟩ : LoggerState Nat).mQueue ∨
      ∃ r, (Logger.Log 1 3 (⟨0, []⟩ : LoggerState Nat) 9
            ['a', 'b', 'c', 'd']).2.mQueue
          = (⟨0, []⟩ : LoggerState Nat).mQueue ++ [r] ∧
        ∃ i, i < 3 ∧ r.mMessage[i]? = some nullChar) ∧
     ((Logger.LogFmt 1 3 (⟨0, []⟩ : LoggerState Nat) 9
            ['a', 'b', 'c', 'd']).2.mQueue
        = (⟨0, []⟩ : LoggerState Nat).mQueue ∨
      ∃ r, (Logger.LogFmt 1 3 (⟨0, []⟩ : LoggerState Nat) 9
            ['a', 'b', 'c', 'd']).2.mQueue
          = (⟨0, []⟩ : LoggerState Nat).mQueue ++ [r] ∧
        ∃ i, i < 3 ∧ r.mMessage[i]? = some nullChar)) :=
  ⟨by decide,
   every_enqueued_record_null_terminated 1 3 ⟨0, []⟩ 9 ['a', 'b', 'c', 'd']
     (by decide)⟩

/-- Reading a null-free text followed by null padding through `"%s"` returns
exactly the text. -/
theorem cString_append_null_padding (msg : List Char) (k : Nat)
    (h : ∀ c ∈ msg, c ≠ nullChar) (hk : 0 < k) :
    cString (msg ++ List.replicate k nullChar) = msg := by
  induction msg with
  | nil =>
    match k, hk with
    | k + 1, _ => simp [cString]
  | cons c rest ih =>
    have hc : c ≠ nullChar := h c (List.mem_cons_self c rest)
    have ih' := ih fun x hx => h x (List.mem_cons_of_mem c hx)
    simp only [cString, List.cons_append] at ih' ⊢
    rw [List.takeWhile_cons_of_pos (by simp [hc]), ih']

/-- C8: a message shorter than `MaxMessageLength - 1` (and free of null
bytes, so that it is a well-formed C string) pushed by `Log` into a
non-full queue returns `Success`, and a subsequent `PrintAndClearLogQueue`
delivers to the sink exactly that message, byte for byte, with count 1. -/
theorem short_message_roundtrip {D : Type} (cap L s0 : Nat) (d : D)
    (msg : List Char) (hfit : msg.length < L - 1)
    (hnonull : ∀ c ∈ msg, c ≠ nullChar) (hcap : 0 < cap) :
    (Logger.Log cap L ⟨s0, []⟩ d msg).1 = Status.Success ∧
    Logger.PrintAndClearLogQueue (Logger.Log cap L ⟨s0, []⟩ d msg).2
      = ((1, [⟨d, s0 + 1, msg⟩]), ⟨s0 + 1, []⟩) := by
  have hroom : (⟨s0, []⟩ : LoggerState D).mQueue.length < cap := by
    simpa using hcap
  have hmin : min msg.length (L - 1) = msg.length := Nat.min_eq_left (by omega)
  have hbuf : stbsp_vsnprintf msg L
      = ((msg.length : Int), msg ++ List.replicate (L - msg.length) nullChar) := by
    simp [stbsp_vsnprintf, hmin]
  constructor
  · rw [Logger.Log, hbuf, LogRaw_of_room cap L ⟨s0, []⟩ d _ hroom]
    have h1 : ¬ ((msg.length : Int) < 0 ∨ (L : Int) ≤ (msg.length : Int)) := by
      push_neg
      omega
    simp [h1]
    omega
  · rw [Log_state_of_room cap L ⟨s0, []⟩ d msg hroom, hbuf]
    simp only [Logger.PrintAndClearLogQueue, List.nil_append, drainLoop_eq,
      List.length_cons, List.length_nil, List.map_cons, List.map_nil, toSinkCall]
    rw [cString_append_null_padding msg (L - msg.length) hnonull (by omega)]

/-- Witness for `short_message_roundtrip`: the two-character message `hi`
through a 5-byte buffer and capacity-2 queue. -/
theorem short_message_roundtrip_witness :
    (['h', 'i'] : List Char).length < 5 - 1 ∧
    (∀ c ∈ (['h', 'i'] : List Char), c ≠ nullChar) ∧
    0 < 2 ∧
    ((Logger.Log 2 5 (⟨0, []⟩ : LoggerState Nat) 3 ['h', 'i']).1
        = Status.Success ∧
     Logger.PrintAndClearLogQueue
        (Logger.Log 2 5 (⟨0, []⟩ : LoggerState Nat) 3 ['h', 'i']).2
       = ((1, [⟨3, 0 + 1, ['h', 'i']⟩]), ⟨0 + 1, []⟩)) :=
  ⟨by decide, by decide, by decide,
   short_message_roundtrip 2 5 0 3 ['h', 'i'] (by decide) (by decide)
     (by decide)⟩

/-- One unfolding step of `runLogs`. -/
theorem runLogs_cons {D : Type} (cap L : Nat) (st : LoggerState D) (d : D)
    (msg : List Char) (rest : List (D × List Char)) :
    runLogs cap L st ((d, msg) :: rest) =
      ⟨(Logger.Log cap L st d msg).1
          :: (runLogs cap L (Logger.Log cap L st d msg).2 rest).statuses,
       (Logger.Log cap L st d msg).2.mQueue.drop st.mQueue.length
          ++ (runLogs cap L (Logger.Log cap L st d msg).2 rest).pushedRecords,
       (runLogs cap L (Logger.Log cap L st d msg).2 rest).final⟩ := rfl

theorem filter_ne_cons_length (s : Status) (l : List Status)
    (h : s ≠ Status.Error_QueueFull) :
    ((s :: l).filter (fun x => x ≠ Status.Error_QueueFull)).length
      = (l.filter (fun x => x ≠ Status.Error_QueueFull)).length + 1 := by
  simp [List.filter_cons, h]

theorem filter_qf_cons_length (l : List Status) :
    ((Status.Error_QueueFull :: l).filter
        (fun x => x ≠ Status.Error_QueueFull)).length
      = (l.filter (fun x => x ≠ Status.Error_QueueFull)).length := by
  simp [List.filter_cons]

/-- Session invariant of a sequence of `Log` calls: the queue grows by
exactly the pushed records in order, non-`QueueFull` statuses are in
bijection with pushed records, and pushed sequence numbers strictly
increase and stay above the starting counter. -/
theorem runLogs_spec {D : Type} (cap L : Nat) :
    ∀ (inputs : List (D × List Char)) (st : LoggerState D),
      (runLogs cap L st inputs).final.mQueue
          = st.mQueue ++ (runLogs cap L st inputs).pushedRecords ∧
      ((runLogs cap L st inputs).statuses.filter
          (fun x => x ≠ Status.Error_QueueFull)).length
          = (runLogs cap L st inputs).pushedRecords.length ∧
      (∀ r ∈ (runLogs cap L st inputs).pushedRecords,
          st.SequenceNumber < r.mSequenceNumber) ∧
      (runLogs cap L st inputs).pushedRecords.Pairwise
          (fun a b => a.mSequenceNumber < b.mSequenceNumber)
  | [], st => by simp [runLogs]
  | (d, msg) :: rest, st => by
    obtain ⟨ihq, ihf, ihb, ihp⟩ :=
      runLogs_spec cap L rest (Logger.Log cap L st d msg).2
    have hseq : (Logger.Log cap L st d msg).2.SequenceNumber
        = st.SequenceNumber + 1 := rfl
    rw [runLogs_cons]
    by_cases h : st.mQueue.length < cap
    · have hstate := Log_state_of_room cap L st d msg h
      have hstatus := Log_status_ne_queueFull_of_room cap L st d msg h
      have hdrop : (Logger.Log cap L st d msg).2.mQueue.drop st.mQueue.length
          = [⟨d, st.SequenceNumber + 1, (stbsp_vsnprintf msg L).2⟩] := by
        rw [hstate]
        exact List.drop_left _ _
      refine ⟨?_, ?_, ?_, ?_⟩
      · rw [hdrop, ihq, hstate, List.append_assoc]
      · dsimp only
        rw [filter_ne_cons_length _ _ hstatus, hdrop, ihf]
        simp only [List.length_append, List.length_cons, List.length_nil]
        omega
      · intro r hr
        rw [hdrop] at hr
        rcases List.mem_append.mp hr with hr | hr
        · rw [List.mem_singleton.mp hr]
          exact Nat.lt_succ_self _
        · have := ihb r hr
          omega
      · rw [hdrop, List.singleton_append, List.pairwise_cons]
        refine ⟨fun b hb => ?_, ihp⟩
        have := ihb b hb
        rw [hseq] at this
        exact this
    · have hfull := Log_of_full cap L st d msg h
      have hdrop : (Logger.Log cap L st d msg).2.mQueue.drop st.mQueue.length
          = [] := by
        rw [hfull]
        exact List.drop_length _
      have hqf : (Logger.Log cap L st d msg).1 = Status.Error_QueueFull := by
        rw [hfull]
      refine ⟨?_, ?_, ?_, ?_⟩
      · rw [hdrop, List.nil_append, ihq, hfull]
      · dsimp only
        rw [hqf, filter_qf_cons_length, hdrop, List.nil_append]
        exact ihf
      · intro r hr
        rw [hdrop, List.nil_append] at hr
        have := ihb r hr
        omega
      · rw [hdrop, List.nil_append]
        exact ihp

/-- C1: for every sequence of `Log` calls (single producer, no concurrent
drain), a subsequent `PrintAndClearLogQueue` invokes the sink once per
record, in exactly the order the records were successfully pushed (strict
FIFO), the sequence numbers seen by the sink in pop order strictly
increase, and the returned count equals the number of `Log` calls that did
not return `Error_QueueFull`. -/
theorem drain_after_run_strict_fifo {D : Type} (cap L s0 : Nat)
    (inputs : List (D × List Char)) :
    (Logger.PrintAndClearLogQueue (runLogs cap L ⟨s0, []⟩ inputs).final).1.2
      = (runLogs cap L ⟨s0, []⟩ inputs).pushedRecords.map toSinkCall ∧
    ((Logger.PrintAndClearLogQueue
        (runLogs cap L ⟨s0, []⟩ inputs).final).1.2.map
          SinkCall.sequenceNumber).Pairwise (· < ·) ∧
    (Logger.PrintAndClearLogQueue (runLogs cap L ⟨s0, []⟩ inputs).final).1.1
      = ((runLogs cap L ⟨s0, []⟩ inputs).statuses.filter
          (fun x => x ≠ Status.Error_QueueFull)).length := by
  obtain ⟨hq, hf, hb, hp⟩ := runLogs_spec cap L inputs ⟨s0, []⟩
  have hq' : (runLogs cap L ⟨s0, []⟩ inputs).final.mQueue
      = (runLogs cap L ⟨s0, []⟩ inputs).pushedRecords := by simpa using hq
  refine ⟨?_, ?_, ?_⟩
  · simp [Logger.PrintAndClearLogQueue, drainLoop_eq, hq']
  · simp only [Logger.PrintAndClearLogQueue, drainLoop_eq, hq',
      List.map_map, List.pairwise_map]
    exact hp
  · simp only [Logger.PrintAndClearLogQueue, drainLoop_eq, hq']
    exact hf.symm

/-- C4: after `Stop` clears `mShouldRun`, the running loop observes the flag
at its next iteration boundary, performs exactly one final
`PrintAndClearLogQueue`, delivers every record still queued to the sink,
and the thread reaches its terminal control point, which no further step
leaves. -/
theorem stop_flushes_and_terminates {D : Type} (s : ThreadState D)
    (hpc : s.pc = ThreadPC.loopCheck) :
    (threadStep (threadStep (LogProcessingThread.Stop s))).pc
        = ThreadPC.done ∧
    (threadStep (threadStep (LogProcessingThread.Stop s))).drains
        = s.drains + 1 ∧
    (threadStep (threadStep (LogProcessingThread.Stop s))).out
        = s.out ++ (drainLoop s.queue).2 ∧
    (threadStep (threadStep (LogProcessingThread.Stop s))).queue = [] ∧
    threadStep (threadStep (threadStep (LogProcessingThread.Stop s)))
        = threadStep (threadStep (LogProcessingThread.Stop s)) := by
  obtain ⟨run, pc, q, o, sl, dr⟩ := s
  cases hpc
  exact ⟨rfl, rfl, rfl, rfl, rfl⟩

/-- Witness for `stop_flushes_and_terminates`: stopping at the loop check
with one queued record drains it before exit. -/
theorem stop_flushes_and_terminates_witness :
    (⟨true, ThreadPC.loopCheck, [⟨7, 3, ['a', nullChar]⟩], [], 2, 5⟩ :
        ThreadState Nat).pc = ThreadPC.loopCheck ∧
    ((threadStep (threadStep (LogProcessingThread.Stop
        (⟨true, ThreadPC.loopCheck, [⟨7, 3, ['a', nullChar]⟩], [], 2, 5⟩ :
          ThreadState Nat)))).pc = ThreadPC.done ∧
     (threadStep (threadStep (LogProcessingThread.Stop
        (⟨true, ThreadPC.loopCheck, [⟨7, 3, ['a', nullChar]⟩], [], 2, 5⟩ :
          ThreadState Nat)))).drains = 5 + 1 ∧
     (threadStep (threadStep (LogProcessingThread.Stop
        (⟨true, ThreadPC.loopCheck, [⟨7, 3, ['a', nullChar]⟩], [], 2, 5⟩ :
          ThreadState Nat)))).out
        = [] ++ (drainLoop [(⟨7, 3, ['a', nullChar]⟩ : InternalLogData Nat)]).2 ∧
     (threadStep (threadStep (LogProcessingThread.Stop
        (⟨true, ThreadPC.loopCheck, [⟨7, 3, ['a', nullChar]⟩], [], 2, 5⟩ :
          ThreadState Nat)))).queue = [] ∧
     threadStep (threadStep (threadStep (LogProcessingThread.Stop
        (⟨true, ThreadPC.loopCheck, [⟨7, 3, ['a', nullChar]⟩], [], 2, 5⟩ :
          ThreadState Nat))))
        = threadStep (threadStep (LogProcessingThread.Stop
        (⟨true, ThreadPC.loopCheck, [⟨7, 3, ['a', nullChar]⟩], [], 2, 5⟩ :
          ThreadState Nat)))) :=
  ⟨rfl, stop_flushes_and_terminates _ rfl⟩

/-- C9 counterexample: at the explicit Running-loop state with an empty
queue, the iteration sleeps two wait intervals, not one — the extra
`sleep_for(mWaitTime)` inside `if (... == 0)` runs in addition to the
unconditional one. -/
theorem fixed_sleep_per_iteration_counterexample :
    (threadStep (⟨true, ThreadPC.loopCheck, [], [], 0, 0⟩ :
        ThreadState Nat)).sleeps ≠ 1 := by
  decide

/-- C9 (amended): in every Running iteration the loop sleeps the configured
wait interval once when the drain processed records, and twice (one extra
interval) when the drain processed none — the number of sleeps per
iteration depends on the drain's result. -/
theorem sleeps_depend_on_drain_result {D : Type} (s : ThreadState D)
    (hpc : s.pc = ThreadPC.loopCheck) (hrun : s.mShouldRun = true) :
    (threadStep s).sleeps
      = s.sleeps + (if (drainLoop s.queue).1 = 0 then 2 else 1) := by
  obtain ⟨run, pc, q, o, sl, dr⟩ := s
  cases hpc
  cases hrun
  simp only [threadStep, if_pos rfl]
  by_cases hq : (drainLoop q).1 = 0 <;> simp [hq]

/-- Witness for `sleeps_depend_on_drain_result` at the empty-queue loop
state: the iteration accumulates two sleep intervals. -/
theorem sleeps_depend_on_drain_result_witness :
    (⟨true, ThreadPC.loopCheck, [], [], 0, 0⟩ : ThreadState Nat).pc
        = ThreadPC.loopCheck ∧
    (⟨true, ThreadPC.loopCheck, [], [], 0, 0⟩ :
        ThreadState Nat).mShouldRun = true ∧
    (threadStep (⟨true, ThreadPC.loopCheck, [], [], 0, 0⟩ :
        ThreadState Nat)).sleeps
      = 0 + (if (drainLoop ([] : List (InternalLogData Nat))).1 = 0
             then 2 else 1) :=
  ⟨rfl, rfl, sleeps_depend_on_drain_result _ rfl rfl⟩

end rtlog
